import Mathlib

/-!
Verification of the score-ranking core of `pydca/plmdca/plmdca.py` (class `PlmDCA`).

The embedding models the index algebra over `ℤ` (the Python float arithmetic in
`map_index_couplings` and `compute_sorted_FN` is exact there: both `L*(L-1)` and
`(L-i)*(L-i-1)` are products of consecutive integers, hence even, so the float
divisions by 2 and the final `int(...)` conversion produce exact integers).
Coupling values are modelled as rationals, scores as real numbers
(`np.sqrt` of the sum of squares), and Python's stable `sorted(..., reverse=True)`
as `List.insertionSort` with the reflexive total relation "score is at least",
which is stable in exactly the same sense.
-/

namespace PlmDCA

/-- Triangular number `n*(n-1)/2` over `ℤ`, the number of unordered site pairs of
`n` sites. -/
def tri (n : ℤ) : ℤ := n * (n - 1) / 2

/-- Embedding of the pair-offset expression
`(L*(L-1)/2) - (L-i)*((L-i)-1)/2 + j - i - 1` shared by
`PlmDCA.map_index_couplings` (line 188) and `PlmDCA.compute_sorted_FN`
(line 283) of `plmdca.py`. -/
def pair_offset (L i j : ℤ) : ℤ :=
  L * (L - 1) / 2 - (L - i) * ((L - i) - 1) / 2 + j - i - 1

/-- Embedding of `PlmDCA.map_index_couplings` (plmdca.py lines 183-190):
`site = int(((L*(L-1)/2) - (L-i)*((L-i)-1)/2 + j - i - 1) * q * q)` and
`k = L*q + site + b + a*q`.  The function is total: the source performs no
validation of its arguments. -/
def map_index_couplings (L q i j a b : ℤ) : ℤ :=
  L * q + pair_offset L i j * (q * q) + b + a * q

theorem pair_offset_eq_tri (L i j : ℤ) :
    pair_offset L i j = tri L - tri (L - i) + j - i - 1 := rfl

theorem tri_mul_two (n : ℤ) : 2 * tri n = n * (n - 1) := by
  have h2 : Even ((n - 1) * (n - 1 + 1)) := Int.even_mul_succ_self (n - 1)
  have e : n - 1 + 1 = n := by ring
  rw [e] at h2
  have h : 2 ∣ n * (n - 1) := by
    rw [mul_comm]
    exact h2.two_dvd
  exact Int.mul_ediv_cancel' h

theorem tri_succ (n : ℤ) : tri (n + 1) = tri n + n := by
  have h1 := tri_mul_two (n + 1)
  have h2 := tri_mul_two n
  have h3 : (n + 1) * (n + 1 - 1) = n * (n - 1) + 2 * n := by ring
  linarith

theorem tri_nonneg {n : ℤ} (h : 0 ≤ n) : 0 ≤ tri n := by
  have h1 := tri_mul_two n
  rcases eq_or_lt_of_le h with h0 | h0
  · have h2 : n * (n - 1) = 0 := by rw [← h0]; ring
    linarith
  · have h2 : (1 : ℤ) ≤ n := h0
    have h3 : 0 ≤ n * (n - 1) := mul_nonneg (by linarith) (by linarith)
    linarith

theorem pair_offset_row_zero (L j : ℤ) : pair_offset L 0 j = j - 1 := by
  unfold pair_offset
  simp only [sub_zero]
  generalize L * (L - 1) / 2 = A
  omega

theorem pair_offset_shift (L i j : ℤ) :
    pair_offset (L + 1) (i + 1) (j + 1) = L + pair_offset L i j := by
  have h2 : (L + 1) - (i + 1) = L - i := by ring
  rw [pair_offset_eq_tri, pair_offset_eq_tri, h2, tri_succ]
  ring

theorem natCast_succ_int (n : ℕ) : ((n + 1 : ℕ) : ℤ) = (n : ℤ) + 1 := by
  push_cast
  ring

/-- Range of the pair offset on valid inputs `0 ≤ i < j < L`. -/
theorem pair_offset_bounds : ∀ (L : ℕ) (i j : ℤ), 0 ≤ i → i < j → j < (L : ℤ) →
    0 ≤ pair_offset L i j ∧ pair_offset L i j < tri L := by
  intro L
  induction L with
  | zero =>
    intro i j hi hij hj
    exfalso
    simp only [Nat.cast_zero] at hj
    omega
  | succ n ih =>
    intro i j hi hij hj
    rw [natCast_succ_int] at hj
    rcases eq_or_lt_of_le hi with h0 | h0
    · obtain rfl : i = 0 := h0.symm
      rw [natCast_succ_int, pair_offset_row_zero, tri_succ]
      have h2 : 0 ≤ tri (n : ℤ) := tri_nonneg (by positivity)
      omega
    · have h1 : (1 : ℤ) ≤ i := h0
      have hs : pair_offset (n + 1) i j = n + pair_offset n (i - 1) (j - 1) := by
        have h := pair_offset_shift n (i - 1) (j - 1)
        have e1 : i - 1 + 1 = i := by ring
        have e2 : j - 1 + 1 = j := by ring
        rw [e1, e2] at h
        exact h
      obtain ⟨hlo, hhi⟩ := ih (i - 1) (j - 1) (by omega) (by omega) (by omega)
      rw [natCast_succ_int, hs, tri_succ]
      omega

/-- The pair offset determines the pair on valid inputs. -/
theorem pair_offset_inj : ∀ (L : ℕ) (i j i2 j2 : ℤ), 0 ≤ i → i < j → j < (L : ℤ) →
    0 ≤ i2 → i2 < j2 → j2 < (L : ℤ) →
    pair_offset L i j = pair_offset L i2 j2 → i = i2 ∧ j = j2 := by
  intro L
  induction L with
  | zero =>
    intro i j i2 j2 hi hij hj hi2 hij2 hj2 heq
    exfalso
    simp only [Nat.cast_zero] at hj
    omega
  | succ n ih =>
    intro i j i2 j2 hi hij hj hi2 hij2 hj2 heq
    rw [natCast_succ_int] at hj hj2
    have shift : ∀ u v : ℤ, 1 ≤ u → pair_offset (n + 1) u v = n + pair_offset n (u - 1) (v - 1) := by
      intro u v hu
      have h := pair_offset_shift n (u - 1) (v - 1)
      have e1 : u - 1 + 1 = u := by ring
      have e2 : v - 1 + 1 = v := by ring
      rw [e1, e2] at h
      exact h
    rcases eq_or_lt_of_le hi with h0 | h0 <;> rcases eq_or_lt_of_le hi2 with h02 | h02
    · obtain rfl : i = 0 := h0.symm
      obtain rfl : i2 = 0 := h02.symm
      rw [natCast_succ_int, pair_offset_row_zero, pair_offset_row_zero] at heq
      omega
    · obtain rfl : i = 0 := h0.symm
      exfalso
      rw [natCast_succ_int] at heq
      rw [pair_offset_row_zero, shift i2 j2 (by omega)] at heq
      obtain ⟨hlo, _⟩ := pair_offset_bounds n (i2 - 1) (j2 - 1) (by omega) (by omega) (by omega)
      omega
    · obtain rfl : i2 = 0 := h02.symm
      exfalso
      rw [natCast_succ_int] at heq
      rw [shift i j (by omega), pair_offset_row_zero] at heq
      obtain ⟨hlo, _⟩ := pair_offset_bounds n (i - 1) (j - 1) (by omega) (by omega) (by omega)
      omega
    · rw [natCast_succ_int] at heq
      rw [shift i j (by omega), shift i2 j2 (by omega)] at heq
      have heq2 : pair_offset n (i - 1) (j - 1) = pair_offset n (i2 - 1) (j2 - 1) := by omega
      obtain ⟨e1, e2⟩ := ih (i - 1) (j - 1) (i2 - 1) (j2 - 1)
        (by omega) (by omega) (by omega) (by omega) (by omega) (by omega) heq2
      omega

/-- Every offset in `[0, tri L)` is attained by a valid pair. -/
theorem pair_offset_surj : ∀ (L : ℕ) (k : ℤ), 0 ≤ k → k < tri L →
    ∃ i j : ℤ, 0 ≤ i ∧ i < j ∧ j < (L : ℤ) ∧ pair_offset L i j = k := by
  intro L
  induction L with
  | zero =>
    intro k hk0 hk
    exfalso
    have : tri ((0 : ℕ) : ℤ) = 0 := by
      have := tri_mul_two ((0 : ℕ) : ℤ)
      simp only [Nat.cast_zero] at this ⊢
      omega
    omega
  | succ n ih =>
    intro k hk0 hk
    rw [natCast_succ_int, tri_succ] at hk
    by_cases hsmall : k < (n : ℤ)
    · refine ⟨0, k + 1, le_refl 0, by omega, by rw [natCast_succ_int]; omega, ?_⟩
      rw [natCast_succ_int, pair_offset_row_zero]
      ring
    · have h2 : 0 ≤ tri (n : ℤ) := tri_nonneg (by positivity)
      obtain ⟨i, j, hi, hij, hj, ho⟩ := ih (k - n) (by omega) (by omega)
      refine ⟨i + 1, j + 1, by omega, by omega, by rw [natCast_succ_int]; omega, ?_⟩
      rw [natCast_succ_int, pair_offset_shift, ho]
      ring

/-- C1: on valid inputs `2 ≤ L`, `2 ≤ q`, `0 ≤ i < j ≤ L-1`, `0 ≤ a < q`,
`0 ≤ b < q`, the index mapping `map_index_couplings` returns exactly
`L*q + ((L*(L-1)/2) - (L-i)*(L-i-1)/2 + (j-i-1))*q*q + a*q + b`, and this value
lies in the couplings region `[L*q, L*q + (L*(L-1)/2)*q*q)` of the raw
parameter array. -/
theorem C1_flat_index_formula_and_range (L q i j a b : ℤ)
    (hL : 2 ≤ L) (hq : 2 ≤ q) (hi : 0 ≤ i) (hij : i < j) (hj : j ≤ L - 1)
    (ha0 : 0 ≤ a) (ha : a < q) (hb0 : 0 ≤ b) (hb : b < q) :
    map_index_couplings L q i j a b
        = L * q + (L * (L - 1) / 2 - (L - i) * ((L - i) - 1) / 2 + (j - i - 1)) * (q * q)
            + a * q + b
      ∧ L * q ≤ map_index_couplings L q i j a b
      ∧ map_index_couplings L q i j a b < L * q + (L * (L - 1) / 2) * (q * q) := by
  have hLnn : 0 ≤ L := by linarith
  have hcast : ((L.toNat : ℤ)) = L := Int.toNat_of_nonneg hLnn
  obtain ⟨hlo, hhi⟩ := pair_offset_bounds L.toNat i j hi hij (by rw [hcast]; omega)
  rw [hcast] at hlo hhi
  have htri : tri L = L * (L - 1) / 2 := rfl
  rw [htri] at hhi
  refine ⟨by unfold map_index_couplings pair_offset; ring, ?_, ?_⟩
  · have h1 : 0 ≤ pair_offset L i j * (q * q) :=
      mul_nonneg hlo (by positivity)
    have h2 : 0 ≤ a * q := mul_nonneg ha0 (by linarith)
    unfold map_index_couplings
    linarith
  · have h1 : pair_offset L i j * (q * q) ≤ (L * (L - 1) / 2 - 1) * (q * q) :=
      mul_le_mul_of_nonneg_right (by omega) (by positivity)
    have h2 : a * q ≤ (q - 1) * q :=
      mul_le_mul_of_nonneg_right (by omega) (by linarith)
    have h3 : (L * (L - 1) / 2 - 1) * (q * q) = (L * (L - 1) / 2) * (q * q) - q * q := by
      ring
    have h4 : (q - 1) * q = q * q - q := by ring
    unfold map_index_couplings
    linarith

/-- Witness for C1 at `L = 3`, `q = 3`, `i = 0`, `j = 1`, `a = 1`, `b = 2`. -/
theorem C1_flat_index_formula_and_range_witness :
    ((2 : ℤ) ≤ 3 ∧ (2 : ℤ) ≤ 3 ∧ (0 : ℤ) ≤ 0 ∧ (0 : ℤ) < 1 ∧ (1 : ℤ) ≤ 3 - 1
        ∧ (0 : ℤ) ≤ 1 ∧ (1 : ℤ) < 3 ∧ (0 : ℤ) ≤ 2 ∧ (2 : ℤ) < 3)
      ∧ (map_index_couplings 3 3 0 1 1 2
            = 3 * 3 + (3 * (3 - 1) / 2 - (3 - 0) * ((3 - 0) - 1) / 2 + (1 - 0 - 1)) * (3 * 3)
                + 1 * 3 + 2
          ∧ 3 * 3 ≤ map_index_couplings 3 3 0 1 1 2
          ∧ map_index_couplings 3 3 0 1 1 2 < 3 * 3 + (3 * (3 - 1) / 2) * (3 * 3)) :=
  ⟨by norm_num,
    C1_flat_index_formula_and_range 3 3 0 1 1 2 (by norm_num) (by norm_num) (by norm_num)
      (by norm_num) (by norm_num) (by norm_num) (by norm_num) (by norm_num) (by norm_num)⟩

/-- C3: for `L ≥ 2` the pair-offset expression is a bijection from
`{(i,j) : 0 ≤ i < j ≤ L-1}` onto the integer interval `[0, L*(L-1)/2)`. -/
theorem C3_pair_offset_bijection (L : ℕ) (_hL : 2 ≤ L) :
    Set.BijOn (fun p : ℤ × ℤ => pair_offset L p.1 p.2)
      {p : ℤ × ℤ | 0 ≤ p.1 ∧ p.1 < p.2 ∧ p.2 ≤ (L : ℤ) - 1}
      (Set.Ico 0 ((L : ℤ) * ((L : ℤ) - 1) / 2)) := by
  have htri : (L : ℤ) * ((L : ℤ) - 1) / 2 = tri L := rfl
  refine ⟨?_, ?_, ?_⟩
  · rintro ⟨i, j⟩ ⟨hi, hij, hj⟩
    obtain ⟨hlo, hhi⟩ := pair_offset_bounds L i j hi hij (by omega)
    exact ⟨hlo, by rw [htri]; exact hhi⟩
  · rintro ⟨i, j⟩ ⟨hi, hij, hj⟩ ⟨i2, j2⟩ ⟨hi2, hij2, hj2⟩ heq
    obtain ⟨e1, e2⟩ := pair_offset_inj L i j i2 j2 hi hij (by omega) hi2 hij2 (by omega) heq
    simp only [Prod.mk.injEq]
    exact ⟨e1, e2⟩
  · rintro k ⟨hk0, hk⟩
    rw [htri] at hk
    obtain ⟨i, j, hi, hij, hj, ho⟩ := pair_offset_surj L k hk0 hk
    exact ⟨(i, j), ⟨hi, hij, by omega⟩, ho⟩

/-- Witness for C3 at `L = 3`. -/
theorem C3_pair_offset_bijection_witness :
    2 ≤ 3 ∧ Set.BijOn (fun p : ℤ × ℤ => pair_offset 3 p.1 p.2)
      {p : ℤ × ℤ | 0 ≤ p.1 ∧ p.1 < p.2 ∧ p.2 ≤ ((3 : ℕ) : ℤ) - 1}
      (Set.Ico 0 (((3 : ℕ) : ℤ) * (((3 : ℕ) : ℤ) - 1) / 2)) :=
  ⟨by norm_num, C3_pair_offset_bijection 3 (by norm_num)⟩

/-- C8 counterexample: the source never validates its arguments. At the invalid
input `i = 1 > j = 0` (with `L = q = 3`) the mapping silently returns the
offset `9` instead of failing, so the claim "fails whenever `i ≥ j`" is false
of the code. -/
theorem C8_counterexample_silent_offset : map_index_couplings 3 3 1 0 0 0 = 9 := by decide

/-- C8 amended: `map_index_couplings` performs no input validation.  It is a
total function that returns the formula value `L*q + pairOffset*q*q + a*q + b`
for every integer input; on invalid inputs this silent result can even collide
with the offset of a valid (site pair, state pair), as `(i,j) = (1,0)` versus
`(0,1)` at `L = q = 3` shows, or point outside the parameter array entirely, as
`(i,j) = (0,5)` with `L = 3` shows (`45 ≥ 36 = L*q + (L*(L-1)/2)*q*q`). -/
theorem C8_amended_no_validation :
    (∀ L q i j a b : ℤ,
        map_index_couplings L q i j a b = L * q + pair_offset L i j * (q * q) + a * q + b)
      ∧ map_index_couplings 3 3 1 0 0 0 = map_index_couplings 3 3 0 1 0 0
      ∧ map_index_couplings 3 3 0 5 0 0 = 45 ∧ ¬ (45 : ℤ) < 3 * 3 + (3 * (3 - 1) / 2) * (3 * 3) := by
  refine ⟨?_, by decide, by decide, by decide⟩
  intro L q i j a b
  unfold map_index_couplings
  ring

/-- The contiguous `(q-1)*(q-1)` non-gap state block appended for one site pair
by the two innermost loops of `PlmDCA.get_couplings_no_gap_state`
(plmdca.py lines 253-256): `a` then `b` over `range(q-1)`, row-major. -/
def state_block (raw : ℤ → ℚ) (L q i j : ℕ) : List ℚ :=
  (List.range (q - 1)).flatMap fun a : ℕ =>
    (List.range (q - 1)).map fun b : ℕ => raw (map_index_couplings L q i j a b)

/-- Embedding of `PlmDCA.get_couplings_no_gap_state` (plmdca.py lines 237-257):
loops `i in range(L-1)`, `j in range(i+1, L)` and, per pair, the state block.
The raw parameter array delivered by the optimizer backend is modelled as a
total function on `ℤ`. -/
def get_couplings_no_gap_state (raw : ℤ → ℚ) (L q : ℕ) : List ℚ :=
  (List.range (L - 1)).flatMap fun i =>
    (List.range' (i + 1) (L - 1 - i)).flatMap fun j => state_block raw L q i j

theorem getD_flatMap_uniform {α β : Type} (f : α → List β) (d : β) (d0 : α) (c : ℕ) :
    ∀ (l : List α) (k m : ℕ), (∀ x ∈ l, (f x).length = c) → k < l.length → m < c →
      (l.flatMap f).getD (k * c + m) d = (f (l.getD k d0)).getD m d := by
  intro l
  induction l with
  | nil =>
    intro k m _ hk _
    simp at hk
  | cons x t ih =>
    intro k m hlen hk hm
    rw [List.flatMap_cons]
    have hx : (f x).length = c := hlen x (List.mem_cons_self x t)
    cases k with
    | zero =>
      rw [Nat.zero_mul, Nat.zero_add, List.getD_append _ _ _ _ (by rw [hx]; exact hm),
        List.getD_cons_zero]
    | succ k2 =>
      have e : (k2 + 1) * c + m = c + (k2 * c + m) := by ring
      rw [e, List.getD_append_right _ _ _ _ (by rw [hx]; exact Nat.le_add_right c _),
        hx, Nat.add_sub_cancel_left, List.getD_cons_succ]
      have hk2 : k2 < t.length := by
        simp only [List.length_cons] at hk
        omega
      exact ih k2 m (fun y hy => hlen y (List.mem_cons_of_mem x hy)) hk2 hm

theorem length_flatMap_const {α β : Type} (f : α → List β) (c : ℕ) (l : List α)
    (h : ∀ x ∈ l, (f x).length = c) : (l.flatMap f).length = l.length * c := by
  rw [List.length_flatMap]
  have h2 : List.map (List.length ∘ f) l = List.map (fun _ => c) l :=
    List.map_congr_left fun a ha => h a ha
  rw [h2, List.map_const', List.sum_replicate, smul_eq_mul]

theorem state_block_length (raw : ℤ → ℚ) (L q i j : ℕ) :
    (state_block raw L q i j).length = (q - 1) * (q - 1) := by
  unfold state_block
  rw [length_flatMap_const _ (q - 1) _ fun a _ => by rw [List.length_map, List.length_range]]
  rw [List.length_range]

theorem state_block_getD (raw : ℤ → ℚ) (L q i j a b : ℕ) (ha : a < q - 1) (hb : b < q - 1) :
    (state_block raw L q i j).getD (a * (q - 1) + b) 0
      = raw (map_index_couplings L q i j a b) := by
  unfold state_block
  rw [getD_flatMap_uniform _ _ 0 (q - 1) _ a b
      (fun x _ => by rw [List.length_map, List.length_range])
      (by rw [List.length_range]; exact ha) hb]
  have hget : (List.range (q - 1)).getD a 0 = a := by
    rw [List.getD_eq_getElem _ _ (by rw [List.length_range]; exact ha), List.getElem_range]
  rw [hget, List.getD_eq_getElem _ _ (by rw [List.length_map, List.length_range]; exact hb)]
  simp only [List.getElem_map, List.getElem_range]

theorem map_index_couplings_shift (L q i j a b : ℤ) :
    map_index_couplings (L + 1) q (i + 1) (j + 1) a b
      = map_index_couplings L q i j a b + q + L * (q * q) := by
  unfold map_index_couplings
  rw [pair_offset_shift]
  ring

theorem state_block_shift (raw : ℤ → ℚ) (L q i j : ℕ) :
    state_block raw (L + 1) q (i + 1) (j + 1)
      = state_block (fun t => raw (t + q + L * (q * q))) L q i j := by
  unfold state_block
  apply List.flatMap_congr
  intro a _
  apply List.map_congr_left
  intro b _
  have e1 : ((L + 1 : ℕ) : ℤ) = (L : ℤ) + 1 := by push_cast; ring
  have e2 : ((i + 1 : ℕ) : ℤ) = (i : ℤ) + 1 := by push_cast; ring
  have e3 : ((j + 1 : ℕ) : ℤ) = (j : ℤ) + 1 := by push_cast; ring
  rw [e1, e2, e3, map_index_couplings_shift]

/-- Peeling off site `0`: the extraction for `L+1` sites is the row of pairs
`(0, j)` followed by the extraction for `L` sites read at indices shifted by
`q + L*q*q` (the flat-index shift of `map_index_couplings_shift`). -/
theorem get_couplings_succ (raw : ℤ → ℚ) (L q : ℕ) :
    get_couplings_no_gap_state raw (L + 1) q
      = ((List.range' 1 L).flatMap fun j => state_block raw (L + 1) q 0 j)
        ++ get_couplings_no_gap_state (fun t => raw (t + q + L * (q * q))) L q := by
  cases L with
  | zero => rfl
  | succ n =>
    unfold get_couplings_no_gap_state
    rw [Nat.add_sub_cancel, List.range_succ_eq_map, List.flatMap_cons, List.flatMap_map]
    refine congrArg₂ (· ++ ·) ?_ ?_
    · norm_num
    · rw [Nat.add_sub_cancel]
      refine List.flatMap_congr fun i _ => ?_
      simp only [Nat.succ_eq_add_one]
      have e3 : i + 1 + 1 = 1 + (i + 1) := by omega
      have e4 : n + 1 - (i + 1) = n - i := by omega
      rw [e3, e4, ← List.map_add_range', List.flatMap_map]
      refine List.flatMap_congr fun j _ => ?_
      have e7 : 1 + j = j + 1 := by omega
      rw [e7]
      exact state_block_shift raw (n + 1) q i j

theorem triNat_succ (n : ℕ) : (n + 1) * n / 2 = n * (n - 1) / 2 + n := by
  cases n with
  | zero => rfl
  | succ k =>
    have hd : 2 ∣ (k + 1) * k := by
      have h2 : Even (k * (k + 1)) := Nat.even_mul_succ_self k
      rw [mul_comm] at h2
      exact h2.two_dvd
    have hd2 : 2 ∣ (k + 1 + 1) * (k + 1) := by
      have h2 : Even ((k + 1) * (k + 1 + 1)) := Nat.even_mul_succ_self (k + 1)
      rw [mul_comm] at h2
      exact h2.two_dvd
    obtain ⟨x, hx⟩ := hd
    obtain ⟨y, hy⟩ := hd2
    rw [Nat.add_sub_cancel, hx, hy]
    have hring : (k + 1 + 1) * (k + 1) = (k + 1) * k + 2 * (k + 1) := by ring
    have hxy : y = x + (k + 1) := by omega
    rw [Nat.mul_div_cancel_left x (by norm_num), Nat.mul_div_cancel_left y (by norm_num)]
    omega

theorem get_couplings_length : ∀ (L q : ℕ) (raw : ℤ → ℚ),
    (get_couplings_no_gap_state raw L q).length
      = L * (L - 1) / 2 * ((q - 1) * (q - 1)) := by
  intro L
  induction L with
  | zero => intro q raw; simp [get_couplings_no_gap_state]
  | succ n ih =>
    intro q raw
    rw [get_couplings_succ, List.length_append, ih,
      length_flatMap_const _ ((q - 1) * (q - 1)) _
        (fun x _ => state_block_length raw (n + 1) q 0 x),
      List.length_range', Nat.add_sub_cancel, triNat_succ]
    ring

theorem get_couplings_getD : ∀ (L q : ℕ) (raw : ℤ → ℚ) (i j a b : ℕ),
    i < j → j < L → a < q - 1 → b < q - 1 →
    (get_couplings_no_gap_state raw L q).getD
        ((pair_offset L i j).toNat * ((q - 1) * (q - 1)) + (a * (q - 1) + b)) 0
      = raw (map_index_couplings L q i j a b) := by
  intro L
  induction L with
  | zero =>
    intro q raw i j a b hij hj ha hb
    omega
  | succ n ih =>
    intro q raw i j a b hij hj ha hb
    rw [get_couplings_succ]
    have hinner : a * (q - 1) + b < (q - 1) * (q - 1) := by
      have h1 : a + 1 ≤ q - 1 := ha
      have h2 : (a + 1) * (q - 1) ≤ (q - 1) * (q - 1) := Nat.mul_le_mul_right _ h1
      have h3 : (a + 1) * (q - 1) = a * (q - 1) + (q - 1) := by ring
      linarith
    have hrow0len :
        ((List.range' 1 n).flatMap fun j2 => state_block raw (n + 1) q 0 j2).length
          = n * ((q - 1) * (q - 1)) := by
      rw [length_flatMap_const _ ((q - 1) * (q - 1)) _
        (fun x _ => state_block_length raw (n + 1) q 0 x), List.length_range']
    rcases Nat.eq_zero_or_pos i with h0 | h0
    · subst h0
      simp only [Nat.cast_zero]
      have hoff : (pair_offset ((n + 1 : ℕ) : ℤ) 0 (j : ℤ)).toNat = j - 1 := by
        rw [pair_offset_row_zero]
        have e : (j : ℤ) - 1 = ((j - 1 : ℕ) : ℤ) := by
          have h1 : 1 ≤ j := by omega
          push_cast [h1]
          ring
        rw [e, Int.toNat_natCast]
      rw [hoff]
      have hbound : (j - 1) * ((q - 1) * (q - 1)) + (a * (q - 1) + b)
          < n * ((q - 1) * (q - 1)) := by
        have h5 : (j - 1) + 1 ≤ n := by omega
        calc (j - 1) * ((q - 1) * (q - 1)) + (a * (q - 1) + b)
            < (j - 1) * ((q - 1) * (q - 1)) + (q - 1) * (q - 1) :=
              Nat.add_lt_add_left hinner _
          _ = ((j - 1) + 1) * ((q - 1) * (q - 1)) := by ring
          _ ≤ n * ((q - 1) * (q - 1)) := Nat.mul_le_mul_right _ h5
      rw [List.getD_append _ _ _ _ (by rw [hrow0len]; exact hbound)]
      rw [getD_flatMap_uniform _ _ 0 ((q - 1) * (q - 1)) _ (j - 1) (a * (q - 1) + b)
        (fun x _ => state_block_length raw (n + 1) q 0 x)
        (by rw [List.length_range']; omega) hinner]
      have hget : (List.range' 1 n).getD (j - 1) 0 = j := by
        rw [List.getD_eq_getElem _ _ (by rw [List.length_range']; omega),
          List.getElem_range'_1]
        omega
      rw [hget, state_block_getD raw (n + 1) q 0 j a b ha hb]
      norm_num
    · have hio : ((i : ℤ)) = ((i - 1 : ℕ) : ℤ) + 1 := by
        have h1 : 1 ≤ i := h0
        push_cast [h1]
        ring
      have hjo : ((j : ℤ)) = ((j - 1 : ℕ) : ℤ) + 1 := by
        have h1 : 1 ≤ j := by omega
        push_cast [h1]
        ring
      have hno : ((n + 1 : ℕ) : ℤ) = ((n : ℕ) : ℤ) + 1 := by push_cast; ring
      obtain ⟨hpo0, _⟩ := pair_offset_bounds n ((i - 1 : ℕ) : ℤ) ((j - 1 : ℕ) : ℤ)
        (by positivity) (by exact_mod_cast (by omega : i - 1 < j - 1)) (by exact_mod_cast (by omega : j - 1 < n))
      have hoff : (pair_offset ((n + 1 : ℕ) : ℤ) (i : ℤ) (j : ℤ)).toNat
          = n + (pair_offset ((n : ℕ) : ℤ) ((i - 1 : ℕ) : ℤ) ((j - 1 : ℕ) : ℤ)).toNat := by
        rw [hio, hjo, hno, pair_offset_shift]
        rw [← Int.toNat_of_nonneg hpo0]
        rw [← Nat.cast_add, Int.toNat_natCast, Int.toNat_natCast]
      rw [hoff]
      have e : (n + (pair_offset ((n : ℕ) : ℤ) ((i - 1 : ℕ) : ℤ) ((j - 1 : ℕ) : ℤ)).toNat)
            * ((q - 1) * (q - 1)) + (a * (q - 1) + b)
          = n * ((q - 1) * (q - 1))
            + ((pair_offset ((n : ℕ) : ℤ) ((i - 1 : ℕ) : ℤ) ((j - 1 : ℕ) : ℤ)).toNat
                * ((q - 1) * (q - 1)) + (a * (q - 1) + b)) := by ring
      rw [e, List.getD_append_right _ _ _ _ (by rw [hrow0len]; exact Nat.le_add_right _ _),
        hrow0len, Nat.add_sub_cancel_left]
      rw [ih q (fun t => raw (t + q + n * (q * q))) (i - 1) (j - 1) a b
        (by omega) (by omega) ha hb]
      show raw (map_index_couplings ((n : ℕ) : ℤ) (q : ℤ) ((i - 1 : ℕ) : ℤ) ((j - 1 : ℕ) : ℤ) a b
      + (q : ℤ) + (n : ℤ) * ((q : ℤ) * (q : ℤ))) = _
      rw [← map_index_couplings_shift, ← hio, ← hjo, ← hno]

/-- C2: for every raw parameter array, the non-gap extraction has length
`(L*(L-1)/2) * (q-1)^2`, and its element at flat position
`pairOffset(i,j,L)*(q-1)^2 + a*(q-1) + b` is exactly
`rawArray[map_index_couplings(i,j,a,b)]`, for every valid pair `(i,j)` and
non-gap state pair `(a,b)`. -/
theorem C2_extraction_layout (raw : ℤ → ℚ) (L q : ℕ) (i j a b : ℕ)
    (hij : i < j) (hj : j < L) (ha : a < q - 1) (hb : b < q - 1) :
    (get_couplings_no_gap_state raw L q).length = L * (L - 1) / 2 * ((q - 1) * (q - 1))
      ∧ (get_couplings_no_gap_state raw L q).getD
          ((pair_offset L i j).toNat * ((q - 1) * (q - 1)) + (a * (q - 1) + b)) 0
        = raw (map_index_couplings L q i j a b) :=
  ⟨get_couplings_length L q raw, get_couplings_getD L q raw i j a b hij hj ha hb⟩

/-- Witness for C2 on the synthetic raw array `rawArray[k] = k`, at
`L = 3, q = 3, (i,j) = (0,2), (a,b) = (1,0)`: the extracted value equals the
flat index itself. -/
theorem C2_extraction_layout_witness :
    ((0 : ℕ) < 2 ∧ (2 : ℕ) < 3 ∧ (1 : ℕ) < 3 - 1 ∧ (0 : ℕ) < 3 - 1)
      ∧ ((get_couplings_no_gap_state (fun k => (k : ℚ)) 3 3).length
            = 3 * (3 - 1) / 2 * ((3 - 1) * (3 - 1))
          ∧ (get_couplings_no_gap_state (fun k => (k : ℚ)) 3 3).getD
              ((pair_offset 3 0 2).toNat * ((3 - 1) * (3 - 1)) + (1 * (3 - 1) + 0)) 0
            = ((map_index_couplings 3 3 0 2 1 0 : ℤ) : ℚ)) :=
  ⟨by norm_num,
    C2_extraction_layout (fun k => (k : ℚ)) 3 3 0 2 1 0
      (by norm_num) (by norm_num) (by norm_num) (by norm_num)⟩

/-- Row means `avx = np.mean(couplings_ij, axis=1)` of a `qm1 × qm1` block
(plmdca.py line 288), broadcast along rows. -/
def avx (qm1 : ℕ) (C : ℕ → ℕ → ℚ) (a : ℕ) : ℚ :=
  (∑ b ∈ Finset.range qm1, C a b) / (qm1 : ℚ)

/-- Column means `avy = np.mean(couplings_ij, axis=0)` (line 290), broadcast
along columns. -/
def avy (qm1 : ℕ) (C : ℕ → ℕ → ℚ) (b : ℕ) : ℚ :=
  (∑ a ∈ Finset.range qm1, C a b) / (qm1 : ℚ)

/-- Global mean `av = np.mean(couplings_ij)` (line 292). -/
def av (qm1 : ℕ) (C : ℕ → ℕ → ℚ) : ℚ :=
  (∑ a ∈ Finset.range qm1, ∑ b ∈ Finset.range qm1, C a b) / ((qm1 : ℚ) * (qm1 : ℚ))

/-- The double mean-centered block `couplings_ij - avx - avy + av` (line 293). -/
def centered (qm1 : ℕ) (C : ℕ → ℕ → ℚ) (a b : ℕ) : ℚ :=
  C a b - avx qm1 C a - avy qm1 C b + av qm1 C

/-- The sum of squares `np.sum(couplings_ij * couplings_ij)` of the centered
block (line 294). -/
def dca_score_sq (qm1 : ℕ) (C : ℕ → ℕ → ℚ) : ℚ :=
  ∑ a ∈ Finset.range qm1, ∑ b ∈ Finset.range qm1, centered qm1 C a b * centered qm1 C a b

/-- The Frobenius-norm DCA score `np.sqrt(...)` of one block (line 295). -/
noncomputable def dca_score (qm1 : ℕ) (C : ℕ → ℕ → ℚ) : ℝ :=
  Real.sqrt ((dca_score_sq qm1 C : ℚ) : ℝ)

/-- Embedding of `start_indx` (line 283): the pair offset scaled by `qm1*qm1`. -/
def start_indx (L i j qm1 : ℕ) : ℤ := pair_offset L i j * (qm1 * qm1)

/-- The reshaped `(qm1, qm1)` block `couplings_ij` (lines 285-287): entry
`(a, b)` is the couplings element at `s + a*qm1 + b` (row-major reshape of the
slice starting at `s`). -/
def couplings_ij (couplings : List ℚ) (s : ℕ) (qm1 : ℕ) (a b : ℕ) : ℚ :=
  couplings.getD (s + (a * qm1 + b)) 0

/-- The score of one site pair in `compute_sorted_FN`. -/
noncomputable def pair_FN (raw : ℤ → ℚ) (L q i j : ℕ) : ℝ :=
  dca_score (q - 1)
    (couplings_ij (get_couplings_no_gap_state raw L q) (start_indx L i j (q - 1)).toNat (q - 1))

/-- The `((i,j), score)` entries of `compute_sorted_FN` before the final sort,
produced in pair-enumeration order by the two loops of lines 281-297. -/
noncomputable def FN_unsorted (raw : ℤ → ℚ) (L q : ℕ) : List ((ℕ × ℕ) × ℝ) :=
  (List.range (L - 1)).flatMap fun i : ℕ =>
    (List.range' (i + 1) (L - 1 - i)).map fun j : ℕ => ((i, j), pair_FN raw L q i j)

/-- Python's stable `sorted(..., key=lambda k: k[1], reverse=True)` keeps `x`
before `y` exactly when `x`'s score is at least `y`'s. -/
def score_ge (x y : (ℕ × ℕ) × ℝ) : Prop := y.2 ≤ x.2

noncomputable instance : DecidableRel score_ge := fun x y => Real.decidableLE y.2 x.2

instance : IsTotal ((ℕ × ℕ) × ℝ) score_ge := ⟨fun x y => le_total y.2 x.2⟩

instance : IsTrans ((ℕ × ℕ) × ℝ) score_ge := ⟨fun _ _ _ h1 h2 => le_trans h2 h1⟩

/-- Embedding of `PlmDCA.compute_sorted_FN` (lines 260-299): the stable
descending sort of the raw Frobenius-norm scores. -/
noncomputable def compute_sorted_FN (raw : ℤ → ℚ) (L q : ℕ) : List ((ℕ × ℕ) × ℝ) :=
  List.insertionSort score_ge (FN_unsorted raw L q)

/-- Per-site average scores `av_score_sites` (lines 318-327): the mean over the
pairs of `scores_plmdca` containing site `i`, divided by `float(N - 1)`. -/
noncomputable def av_score_sites (raw : ℤ → ℚ) (L q : ℕ) (i : ℕ) : ℝ :=
  (((compute_sorted_FN raw L q).filter fun p => decide (p.1.1 = i ∨ p.1.2 = i)).map
    fun p => p.2).sum / ((L : ℝ) - 1)

/-- The global average `av_all_scores` (line 329). -/
noncomputable def av_all_scores (raw : ℤ → ℚ) (L q : ℕ) : ℝ :=
  (∑ i ∈ Finset.range L, av_score_sites raw L q i) / (L : ℝ)

/-- The APC-corrected entries
`score - av_score_sites[i] * (av_score_sites[j] / av_all_scores)` in the order
of `scores_plmdca` (lines 330-334). -/
noncomputable def APC_unsorted (raw : ℤ → ℚ) (L q : ℕ) : List ((ℕ × ℕ) × ℝ) :=
  (compute_sorted_FN raw L q).map fun p =>
    (p.1, p.2 - av_score_sites raw L q p.1.1
        * (av_score_sites raw L q p.1.2 / av_all_scores raw L q))

/-- Embedding of `PlmDCA.compute_sorted_FN_APC` (lines 302-337). -/
noncomputable def compute_sorted_FN_APC (raw : ℤ → ℚ) (L q : ℕ) : List ((ℕ × ℕ) × ℝ) :=
  List.insertionSort score_ge (APC_unsorted raw L q)

/-- First score found for a given site pair in a score list. -/
def scoreOf (l : List ((ℕ × ℕ) × ℝ)) (p : ℕ × ℕ) : Option ℝ :=
  (l.find? fun e => decide (e.1 = p)).map fun e => e.2

theorem centered_shift (qm1 : ℕ) (hq : (qm1 : ℚ) ≠ 0) (C : ℕ → ℕ → ℚ) (r c : ℕ → ℚ)
    (a b : ℕ) :
    centered qm1 (fun a2 b2 => C a2 b2 + r a2 + c b2) a b = centered qm1 C a b := by
  unfold centered avx avy av
  simp only [Finset.sum_add_distrib, Finset.sum_const, Finset.card_range, nsmul_eq_mul]
  field_simp
  simp only [← Finset.mul_sum]
  ring

/-- C4: adding an arbitrary row vector and an arbitrary column vector to a
coupling block leaves the raw Frobenius-norm score (double mean-centering then
Frobenius norm) unchanged. -/
theorem C4_gauge_invariance (qm1 : ℕ) (C : ℕ → ℕ → ℚ) (r c : ℕ → ℚ) :
    dca_score qm1 (fun a b => C a b + r a + c b) = dca_score qm1 C := by
  rcases Nat.eq_zero_or_pos qm1 with h0 | h0
  · subst h0
    unfold dca_score dca_score_sq
    simp
  · have hq : (qm1 : ℚ) ≠ 0 := by
      have h1 : (0 : ℚ) < (qm1 : ℚ) := by exact_mod_cast h0
      exact ne_of_gt h1
    unfold dca_score
    have hsq : dca_score_sq qm1 (fun a2 b2 => C a2 b2 + r a2 + c b2) = dca_score_sq qm1 C := by
      unfold dca_score_sq
      refine Finset.sum_congr rfl fun a _ => Finset.sum_congr rfl fun b _ => ?_
      rw [centered_shift qm1 hq C r c a b]
    rw [hsq]

/-- Stability of the sort: filtering the sorted output to any single score
value gives exactly the same-score entries of the input, in input order. -/
theorem filter_score_insertionSort (l : List ((ℕ × ℕ) × ℝ)) (s : ℝ) :
    (List.insertionSort score_ge l).filter (fun p => decide (p.2 = s))
      = l.filter fun p => decide (p.2 = s) := by
  have hsub : (l.filter fun p => decide (p.2 = s)).Sublist (List.insertionSort score_ge l) := by
    apply List.sublist_insertionSort
    · apply List.pairwise_of_forall_mem_list
      intro x hx y hy
      have hxs : x.2 = s := by
        have h := (List.mem_filter.mp hx).2
        simpa using h
      have hys : y.2 = s := by
        have h := (List.mem_filter.mp hy).2
        simpa using h
      show y.2 ≤ x.2
      rw [hxs, hys]
    · exact List.filter_sublist l
  have hsub2 : ((l.filter fun p => decide (p.2 = s)).filter fun p => decide (p.2 = s)).Sublist
      ((List.insertionSort score_ge l).filter fun p => decide (p.2 = s)) :=
    List.Sublist.filter _ hsub
  rw [List.filter_filter] at hsub2
  have e : (fun (p : (ℕ × ℕ) × ℝ) => decide (p.2 = s) && decide (p.2 = s))
      = fun p => decide (p.2 = s) := by
    funext p
    rw [Bool.and_self]
  rw [e] at hsub2
  have hperm : ((List.insertionSort score_ge l).filter fun p => decide (p.2 = s)).Perm
      (l.filter fun p => decide (p.2 = s)) :=
    List.Perm.filter _ (List.perm_insertionSort score_ge l)
  exact (hsub2.eq_of_length hperm.length_eq.symm).symm

/-- C5 amended: both outputs are sorted by score in descending order and both
sorts are stable; the raw output's ties therefore fall back to the
pair-enumeration order of `FN_unsorted`, while the APC output's ties fall back
to the order of `APC_unsorted`, which is the raw-score-sorted order of
`scores_plmdca`, not the pair-enumeration order. -/
theorem C5_amended_sorted_and_stable (raw : ℤ → ℚ) (L q : ℕ) :
    (compute_sorted_FN raw L q).Sorted score_ge
      ∧ (compute_sorted_FN_APC raw L q).Sorted score_ge
      ∧ (∀ s : ℝ, (compute_sorted_FN raw L q).filter (fun p => decide (p.2 = s))
          = (FN_unsorted raw L q).filter fun p => decide (p.2 = s))
      ∧ ∀ s : ℝ, (compute_sorted_FN_APC raw L q).filter (fun p => decide (p.2 = s))
          = (APC_unsorted raw L q).filter fun p => decide (p.2 = s) :=
  ⟨List.sorted_insertionSort score_ge _, List.sorted_insertionSort score_ge _,
    fun s => filter_score_insertionSort _ s, fun s => filter_score_insertionSort _ s⟩

/-- C6: an entry `((i,j), s)` appears in the APC output exactly when some raw
entry `((i,j), s0)` appears in `compute_sorted_FN` with
`s = s0 - avg[i]*avg[j]/globalAvg`, the averages being those computed by
`av_score_sites` and `av_all_scores` from the raw scores. -/
theorem C6_apc_correction_formula (raw : ℤ → ℚ) (L q : ℕ) (i j : ℕ) (s : ℝ) :
    ((i, j), s) ∈ compute_sorted_FN_APC raw L q
      ↔ ∃ s0 : ℝ, ((i, j), s0) ∈ compute_sorted_FN raw L q
          ∧ s = s0 - av_score_sites raw L q i * av_score_sites raw L q j
              / av_all_scores raw L q := by
  unfold compute_sorted_FN_APC
  rw [List.mem_insertionSort]
  unfold APC_unsorted
  rw [List.mem_map]
  constructor
  · rintro ⟨⟨⟨i2, j2⟩, s0⟩, hmem, heq⟩
    simp only [Prod.mk.injEq] at heq
    obtain ⟨⟨hi, hj⟩, hs⟩ := heq
    subst hi
    subst hj
    refine ⟨s0, hmem, ?_⟩
    rw [← hs, mul_div_assoc]
  · rintro ⟨s0, hmem, hs⟩
    refine ⟨((i, j), s0), hmem, ?_⟩
    rw [hs, mul_div_assoc]

/-- C9 amended: every raw Frobenius-norm score is non-negative (it is a real
square root); the APC-corrected scores can be negative. -/
theorem C9_amended_raw_scores_nonneg (raw : ℤ → ℚ) (L q : ℕ) (p : (ℕ × ℕ) × ℝ)
    (hp : p ∈ compute_sorted_FN raw L q) : 0 ≤ p.2 := by
  unfold compute_sorted_FN at hp
  rw [List.mem_insertionSort] at hp
  unfold FN_unsorted at hp
  rw [List.mem_flatMap] at hp
  obtain ⟨i, _, hp2⟩ := hp
  rw [List.mem_map] at hp2
  obtain ⟨j, _, hp3⟩ := hp2
  rw [← hp3]
  exact Real.sqrt_nonneg _

/-- The all-zero raw parameter array. -/
def zero_raw : ℤ → ℚ := fun _ => 0

/-- Witness for C9 amended at the all-zero input with `L = 2`, `q = 2`. -/
theorem C9_amended_raw_scores_nonneg_witness :
    (((0, 1), pair_FN zero_raw 2 2 0 1) ∈ compute_sorted_FN zero_raw 2 2)
      ∧ 0 ≤ (((0, 1), pair_FN zero_raw 2 2 0 1) : (ℕ × ℕ) × ℝ).2 := by
  have hmem : ((0, 1), pair_FN zero_raw 2 2 0 1) ∈ compute_sorted_FN zero_raw 2 2 := by
    show ((0, 1), pair_FN zero_raw 2 2 0 1) ∈ List.insertionSort score_ge (FN_unsorted zero_raw 2 2)
    have h : FN_unsorted zero_raw 2 2 = [((0, 1), pair_FN zero_raw 2 2 0 1)] := rfl
    rw [h]
    simp [List.insertionSort, List.orderedInsert]
  refine ⟨hmem, ?_⟩
  exact C9_amended_raw_scores_nonneg zero_raw 2 2 _ hmem


theorem dca_score_eq_of_sq (qm1 : ℕ) (C : ℕ → ℕ → ℚ) (x : ℚ)
    (hsq : dca_score_sq qm1 C = x * x) (hx : 0 ≤ x) : dca_score qm1 C = (x : ℝ) := by
  unfold dca_score
  rw [hsq]
  have e : ((x * x : ℚ) : ℝ) = (x : ℝ) ^ 2 := by push_cast; ring
  rw [e]
  exact Real.sqrt_sq (by exact_mod_cast hx)

theorem avx_two (C : ℕ → ℕ → ℚ) (a : ℕ) : avx 2 C a = (C a 0 + C a 1) / 2 := by
  unfold avx
  rw [Finset.sum_range_succ, Finset.sum_range_one]
  norm_num

theorem avy_two (C : ℕ → ℕ → ℚ) (b : ℕ) : avy 2 C b = (C 0 b + C 1 b) / 2 := by
  unfold avy
  rw [Finset.sum_range_succ, Finset.sum_range_one]
  norm_num

theorem av_two (C : ℕ → ℕ → ℚ) : av 2 C = (C 0 0 + C 0 1 + (C 1 0 + C 1 1)) / 4 := by
  unfold av
  simp only [Finset.sum_range_succ, Finset.sum_range_zero]
  push_cast
  ring

theorem centered_two (C : ℕ → ℕ → ℚ) (a b : ℕ) :
    centered 2 C a b = C a b - (C a 0 + C a 1) / 2 - (C 0 b + C 1 b) / 2
      + (C 0 0 + C 0 1 + (C 1 0 + C 1 1)) / 4 := by
  unfold centered
  rw [avx_two, avy_two, av_two]

theorem dca_score_sq_two (C : ℕ → ℕ → ℚ) :
    dca_score_sq 2 C
      = (C 0 0 - C 0 1 - C 1 0 + C 1 1) * (C 0 0 - C 0 1 - C 1 0 + C 1 1) / 4 := by
  unfold dca_score_sq centered avx avy av
  simp only [Finset.sum_range_succ, Finset.sum_range_zero]
  push_cast
  ring

/-- Evaluation of one pair score at `q = 3` from the four non-gap block
entries: the double-centered `2 × 2` block has sum of squares
`(w - x - y + z)^2 / 4`. -/
theorem pair_FN_eval_two (raw : ℤ → ℚ) (L i j : ℕ) (w x y z t : ℚ) (ht : 0 ≤ t)
    (h00 : couplings_ij (get_couplings_no_gap_state raw L 3)
        (start_indx L i j (3 - 1)).toNat (3 - 1) 0 0 = w)
    (h01 : couplings_ij (get_couplings_no_gap_state raw L 3)
        (start_indx L i j (3 - 1)).toNat (3 - 1) 0 1 = x)
    (h10 : couplings_ij (get_couplings_no_gap_state raw L 3)
        (start_indx L i j (3 - 1)).toNat (3 - 1) 1 0 = y)
    (h11 : couplings_ij (get_couplings_no_gap_state raw L 3)
        (start_indx L i j (3 - 1)).toNat (3 - 1) 1 1 = z)
    (hsq : (w - x - y + z) * (w - x - y + z) / 4 = t * t) :
    pair_FN raw L 3 i j = (t : ℝ) := by
  unfold pair_FN
  apply dca_score_eq_of_sq
  · rw [show (3 - 1 : ℕ) = 2 from rfl] at h00 h01 h10 h11 ⊢
    rw [dca_score_sq_two, h00, h01, h10, h11]
    exact hsq
  · exact ht

theorem FN_unsorted_three (raw : ℤ → ℚ) : FN_unsorted raw 3 3
    = [((0, 1), pair_FN raw 3 3 0 1), ((0, 2), pair_FN raw 3 3 0 2),
        ((1, 2), pair_FN raw 3 3 1 2)] := rfl

/-- C10 raw array: `L = 3`, `q = 3`, fields zero, the pair `(0,1)` block equal
to `[[1,2,3],[4,5,6],[7,8,9]]` row-major at flat positions 9..17, the other two
blocks zero. -/
def raw_c10 : ℤ → ℚ := fun k => if 9 ≤ k ∧ k ≤ 17 then ((k - 8 : ℤ) : ℚ) else 0

/-- C9 counterexample raw array: `L = 3`, `q = 3`; the non-gap blocks of pairs
`(0,1)` and `(0,2)` are `diag(1,1)`, the block of `(1,2)` is zero. -/
def raw_c9 : ℤ → ℚ := fun k => if k = 9 ∨ k = 13 ∨ k = 18 ∨ k = 22 then 1 else 0

theorem couplings_c10 : get_couplings_no_gap_state raw_c10 3 3
    = [1, 2, 4, 5, 0, 0, 0, 0, 0, 0, 0, 0] := by decide

theorem couplings_c9 : get_couplings_no_gap_state raw_c9 3 3
    = [1, 0, 0, 1, 1, 0, 0, 1, 0, 0, 0, 0] := by decide

theorem couplings_zero3 : get_couplings_no_gap_state zero_raw 3 3
    = [0, 0, 0, 0, 0, 0, 0, 0, 0, 0, 0, 0] := by decide

theorem pair_FN_c10_01 : pair_FN raw_c10 3 3 0 1 = 0 := by
  rw [pair_FN_eval_two raw_c10 3 0 1 1 2 4 5 0 le_rfl
    (by rw [couplings_c10]; decide) (by rw [couplings_c10]; decide)
    (by rw [couplings_c10]; decide) (by rw [couplings_c10]; decide) (by norm_num)]
  norm_num

theorem pair_FN_c10_02 : pair_FN raw_c10 3 3 0 2 = 0 := by
  rw [pair_FN_eval_two raw_c10 3 0 2 0 0 0 0 0 le_rfl
    (by rw [couplings_c10]; decide) (by rw [couplings_c10]; decide)
    (by rw [couplings_c10]; decide) (by rw [couplings_c10]; decide) (by norm_num)]
  norm_num

theorem pair_FN_c10_12 : pair_FN raw_c10 3 3 1 2 = 0 := by
  rw [pair_FN_eval_two raw_c10 3 1 2 0 0 0 0 0 le_rfl
    (by rw [couplings_c10]; decide) (by rw [couplings_c10]; decide)
    (by rw [couplings_c10]; decide) (by rw [couplings_c10]; decide) (by norm_num)]
  norm_num

theorem compute_sorted_FN_c10 : compute_sorted_FN raw_c10 3 3
    = [((0, 1), (0 : ℝ)), ((0, 2), 0), ((1, 2), 0)] := by
  unfold compute_sorted_FN
  rw [FN_unsorted_three, pair_FN_c10_01, pair_FN_c10_02, pair_FN_c10_12]
  norm_num [List.insertionSort, List.orderedInsert, score_ge]

/-- C10 counterexample: on the spec's concrete scenario the raw score of pair
`(0,1)` is `0`, not `sqrt(1/2)`: the block `[[1,2],[4,5]]` has column means
`[5/2, 7/2]` (not `[2.5, 4.5]` as the spec asserts) and double mean-centering
annihilates it, since `C[a][b] = 3a + b + 1` is an additive row-plus-column
pattern. -/
theorem C10_counterexample_score_is_zero :
    scoreOf (compute_sorted_FN raw_c10 3 3) (0, 1) = some 0
      ∧ (0 : ℝ) ≠ Real.sqrt (1 / 2)
      ∧ avy 2 (couplings_ij (get_couplings_no_gap_state raw_c10 3 3) 0 2) 1 = 7 / 2 := by
  refine ⟨?_, ne_of_lt (Real.sqrt_pos.mpr (by norm_num)), ?_⟩
  · rw [compute_sorted_FN_c10]
    rfl
  · rw [couplings_c10, avy_two,
      (by decide : couplings_ij [(1 : ℚ), 2, 4, 5, 0, 0, 0, 0, 0, 0, 0, 0] 0 2 0 1 = 2),
      (by decide : couplings_ij [(1 : ℚ), 2, 4, 5, 0, 0, 0, 0, 0, 0, 0, 0] 0 2 1 1 = 5)]
    norm_num

/-- C10 amended: the extracted non-gap block of pair `(0,1)` is `[1,2,4,5]`;
its row means are `[3/2, 9/2]`, its column means `[5/2, 7/2]`, its global mean
`3`, the double-centered matrix is identically zero, and the raw score of pair
`(0,1)` is `0 = sqrt(0)`. -/
theorem C10_amended_concrete_scenario :
    (get_couplings_no_gap_state raw_c10 3 3).take 4 = [1, 2, 4, 5]
      ∧ avx 2 (couplings_ij (get_couplings_no_gap_state raw_c10 3 3) 0 2) 0 = 3 / 2
      ∧ avx 2 (couplings_ij (get_couplings_no_gap_state raw_c10 3 3) 0 2) 1 = 9 / 2
      ∧ avy 2 (couplings_ij (get_couplings_no_gap_state raw_c10 3 3) 0 2) 0 = 5 / 2
      ∧ avy 2 (couplings_ij (get_couplings_no_gap_state raw_c10 3 3) 0 2) 1 = 7 / 2
      ∧ av 2 (couplings_ij (get_couplings_no_gap_state raw_c10 3 3) 0 2) = 3
      ∧ centered 2 (couplings_ij (get_couplings_no_gap_state raw_c10 3 3) 0 2) 0 0 = 0
      ∧ centered 2 (couplings_ij (get_couplings_no_gap_state raw_c10 3 3) 0 2) 0 1 = 0
      ∧ centered 2 (couplings_ij (get_couplings_no_gap_state raw_c10 3 3) 0 2) 1 0 = 0
      ∧ centered 2 (couplings_ij (get_couplings_no_gap_state raw_c10 3 3) 0 2) 1 1 = 0
      ∧ scoreOf (compute_sorted_FN raw_c10 3 3) (0, 1) = some 0 := by
  rw [couplings_c10, compute_sorted_FN_c10]
  have h00 : couplings_ij [(1 : ℚ), 2, 4, 5, 0, 0, 0, 0, 0, 0, 0, 0] 0 2 0 0 = 1 := by decide
  have h01 : couplings_ij [(1 : ℚ), 2, 4, 5, 0, 0, 0, 0, 0, 0, 0, 0] 0 2 0 1 = 2 := by decide
  have h10 : couplings_ij [(1 : ℚ), 2, 4, 5, 0, 0, 0, 0, 0, 0, 0, 0] 0 2 1 0 = 4 := by decide
  have h11 : couplings_ij [(1 : ℚ), 2, 4, 5, 0, 0, 0, 0, 0, 0, 0, 0] 0 2 1 1 = 5 := by decide
  refine ⟨by decide, ?_, ?_, ?_, ?_, ?_, ?_, ?_, ?_, ?_, rfl⟩
  · rw [avx_two, h00, h01]; norm_num
  · rw [avx_two, h10, h11]; norm_num
  · rw [avy_two, h00, h10]; norm_num
  · rw [avy_two, h01, h11]; norm_num
  · rw [av_two, h00, h01, h10, h11]; norm_num
  · rw [centered_two, h00, h01, h10, h11]; norm_num
  · rw [centered_two, h01, h00, h10, h11]; norm_num
  · rw [centered_two, h10, h00, h01, h11]; norm_num
  · rw [centered_two, h11, h00, h01, h10]; norm_num

theorem pair_FN_zero3_01 : pair_FN zero_raw 3 3 0 1 = 0 := by
  rw [pair_FN_eval_two zero_raw 3 0 1 0 0 0 0 0 le_rfl
    (by rw [couplings_zero3]; decide) (by rw [couplings_zero3]; decide)
    (by rw [couplings_zero3]; decide) (by rw [couplings_zero3]; decide) (by norm_num)]
  norm_num

theorem pair_FN_zero3_02 : pair_FN zero_raw 3 3 0 2 = 0 := by
  rw [pair_FN_eval_two zero_raw 3 0 2 0 0 0 0 0 le_rfl
    (by rw [couplings_zero3]; decide) (by rw [couplings_zero3]; decide)
    (by rw [couplings_zero3]; decide) (by rw [couplings_zero3]; decide) (by norm_num)]
  norm_num

theorem pair_FN_zero3_12 : pair_FN zero_raw 3 3 1 2 = 0 := by
  rw [pair_FN_eval_two zero_raw 3 1 2 0 0 0 0 0 le_rfl
    (by rw [couplings_zero3]; decide) (by rw [couplings_zero3]; decide)
    (by rw [couplings_zero3]; decide) (by rw [couplings_zero3]; decide) (by norm_num)]
  norm_num

theorem compute_sorted_FN_zero3 : compute_sorted_FN zero_raw 3 3
    = [((0, 1), (0 : ℝ)), ((0, 2), 0), ((1, 2), 0)] := by
  unfold compute_sorted_FN
  rw [FN_unsorted_three, pair_FN_zero3_01, pair_FN_zero3_02, pair_FN_zero3_12]
  norm_num [List.insertionSort, List.orderedInsert, score_ge]

theorem av_sites_zero3 (i : ℕ) : av_score_sites zero_raw 3 3 i = 0 := by
  unfold av_score_sites
  rw [compute_sorted_FN_zero3]
  have hz : ∀ y ∈ (([((0, 1), (0 : ℝ)), ((0, 2), 0), ((1, 2), 0)].filter
      fun p => decide (p.1.1 = i ∨ p.1.2 = i)).map fun p => p.2), y = 0 := by
    intro y hy
    rw [List.mem_map] at hy
    obtain ⟨p, hp, hpy⟩ := hy
    have hp2 := (List.mem_filter.mp hp).1
    rw [List.mem_cons, List.mem_cons, List.mem_singleton] at hp2
    rcases hp2 with h | h | h <;> rw [← hpy, h]
  rw [List.sum_eq_zero hz]
  norm_num

theorem av_all_zero3 : av_all_scores zero_raw 3 3 = 0 := by
  unfold av_all_scores
  simp [av_sites_zero3]

/-- C7: the source has no guard for a zero global average.  On the all-zero
input every raw score is `0`, `av_all_scores` is `0`, and
`compute_sorted_FN_APC` still returns a full result instead of signaling a
degenerate-input error.  In the source the corrected scores are numpy float64
values `0.0 - 0.0*(0.0/0.0)`, i.e. silently propagated `nan` (numpy emits only
a runtime warning, no exception); the embedding's real-division convention
`x / 0 = 0` renders them `0` here. -/
theorem C7_zero_global_average_not_guarded :
    av_all_scores zero_raw 3 3 = 0
      ∧ compute_sorted_FN_APC zero_raw 3 3
          = [((0, 1), (0 : ℝ)), ((0, 2), 0), ((1, 2), 0)] := by
  refine ⟨av_all_zero3, ?_⟩
  unfold compute_sorted_FN_APC APC_unsorted
  rw [compute_sorted_FN_zero3]
  simp only [List.map, av_sites_zero3, av_all_zero3]
  norm_num [List.insertionSort, List.orderedInsert, score_ge]

theorem pair_FN_c9_01 : pair_FN raw_c9 3 3 0 1 = 1 := by
  rw [pair_FN_eval_two raw_c9 3 0 1 1 0 0 1 1 (by norm_num)
    (by rw [couplings_c9]; decide) (by rw [couplings_c9]; decide)
    (by rw [couplings_c9]; decide) (by rw [couplings_c9]; decide) (by norm_num)]
  norm_num

theorem pair_FN_c9_02 : pair_FN raw_c9 3 3 0 2 = 1 := by
  rw [pair_FN_eval_two raw_c9 3 0 2 1 0 0 1 1 (by norm_num)
    (by rw [couplings_c9]; decide) (by rw [couplings_c9]; decide)
    (by rw [couplings_c9]; decide) (by rw [couplings_c9]; decide) (by norm_num)]
  norm_num

theorem pair_FN_c9_12 : pair_FN raw_c9 3 3 1 2 = 0 := by
  rw [pair_FN_eval_two raw_c9 3 1 2 0 0 0 0 0 le_rfl
    (by rw [couplings_c9]; decide) (by rw [couplings_c9]; decide)
    (by rw [couplings_c9]; decide) (by rw [couplings_c9]; decide) (by norm_num)]
  norm_num

theorem compute_sorted_FN_c9 : compute_sorted_FN raw_c9 3 3
    = [((0, 1), (1 : ℝ)), ((0, 2), 1), ((1, 2), 0)] := by
  unfold compute_sorted_FN
  rw [FN_unsorted_three, pair_FN_c9_01, pair_FN_c9_02, pair_FN_c9_12]
  norm_num [List.insertionSort, List.orderedInsert, score_ge]

theorem av_sites_c9_0 : av_score_sites raw_c9 3 3 0 = 1 := by
  unfold av_score_sites
  rw [compute_sorted_FN_c9]
  norm_num [List.filter_cons, List.filter_nil]

theorem av_sites_c9_1 : av_score_sites raw_c9 3 3 1 = 1 / 2 := by
  unfold av_score_sites
  rw [compute_sorted_FN_c9]
  norm_num [List.filter_cons, List.filter_nil]

theorem av_sites_c9_2 : av_score_sites raw_c9 3 3 2 = 1 / 2 := by
  unfold av_score_sites
  rw [compute_sorted_FN_c9]
  norm_num [List.filter_cons, List.filter_nil]

theorem av_all_c9 : av_all_scores raw_c9 3 3 = 2 / 3 := by
  unfold av_all_scores
  rw [Finset.sum_range_succ, Finset.sum_range_succ, Finset.sum_range_one,
    av_sites_c9_0, av_sites_c9_1, av_sites_c9_2]
  norm_num

theorem compute_sorted_FN_APC_c9 : compute_sorted_FN_APC raw_c9 3 3
    = [((0, 1), (1 / 4 : ℝ)), ((0, 2), 1 / 4), ((1, 2), -(3 / 8))] := by
  unfold compute_sorted_FN_APC APC_unsorted
  rw [compute_sorted_FN_c9]
  simp only [List.map, av_sites_c9_0, av_sites_c9_1, av_sites_c9_2, av_all_c9]
  norm_num [List.insertionSort, List.orderedInsert, score_ge]

/-- C9 counterexample: on `raw_c9` the APC-corrected score of pair `(1,2)` is
`-3/8 < 0`, so the APC output can contain negative scores. -/
theorem C9_counterexample_negative_apc_score :
    scoreOf (compute_sorted_FN_APC raw_c9 3 3) (1, 2) = some (-(3 / 8))
      ∧ (-(3 / 8) : ℝ) < 0 := by
  refine ⟨?_, by norm_num⟩
  rw [compute_sorted_FN_APC_c9]
  rfl

/-- C5 counterexample raw array: `L = 4`, `q = 3`; each pair's non-gap block is
`diag(x, x)`, with `x` equal to 1, 2, 3, 4, 16, 2 for the pairs
(0,1), (0,2), (0,3), (1,2), (1,3), (2,3) respectively, so the raw scores are
those six values. -/
def raw_c5 : ℤ → ℚ := fun k =>
  if k = 12 ∨ k = 16 then 1
  else if k = 21 ∨ k = 25 then 2
  else if k = 30 ∨ k = 34 then 3
  else if k = 39 ∨ k = 43 then 4
  else if k = 48 ∨ k = 52 then 16
  else if k = 57 ∨ k = 61 then 2
  else 0

theorem couplings_c5 : get_couplings_no_gap_state raw_c5 4 3
    = [1, 0, 0, 1, 2, 0, 0, 2, 3, 0, 0, 3, 4, 0, 0, 4, 16, 0, 0, 16, 2, 0, 0, 2] := by decide

theorem FN_unsorted_four (raw : ℤ → ℚ) : FN_unsorted raw 4 3
    = [((0, 1), pair_FN raw 4 3 0 1), ((0, 2), pair_FN raw 4 3 0 2),
        ((0, 3), pair_FN raw 4 3 0 3), ((1, 2), pair_FN raw 4 3 1 2),
        ((1, 3), pair_FN raw 4 3 1 3), ((2, 3), pair_FN raw 4 3 2 3)] := rfl

theorem pair_FN_c5_01 : pair_FN raw_c5 4 3 0 1 = 1 := by
  rw [pair_FN_eval_two raw_c5 4 0 1 1 0 0 1 1 (by norm_num)
    (by rw [couplings_c5]; decide) (by rw [couplings_c5]; decide)
    (by rw [couplings_c5]; decide) (by rw [couplings_c5]; decide) (by norm_num)]
  norm_num

theorem pair_FN_c5_02 : pair_FN raw_c5 4 3 0 2 = 2 := by
  rw [pair_FN_eval_two raw_c5 4 0 2 2 0 0 2 2 (by norm_num)
    (by rw [couplings_c5]; decide) (by rw [couplings_c5]; decide)
    (by rw [couplings_c5]; decide) (by rw [couplings_c5]; decide) (by norm_num)]
  norm_num

theorem pair_FN_c5_03 : pair_FN raw_c5 4 3 0 3 = 3 := by
  rw [pair_FN_eval_two raw_c5 4 0 3 3 0 0 3 3 (by norm_num)
    (by rw [couplings_c5]; decide) (by rw [couplings_c5]; decide)
    (by rw [couplings_c5]; decide) (by rw [couplings_c5]; decide) (by norm_num)]
  norm_num

theorem pair_FN_c5_12 : pair_FN raw_c5 4 3 1 2 = 4 := by
  rw [pair_FN_eval_two raw_c5 4 1 2 4 0 0 4 4 (by norm_num)
    (by rw [couplings_c5]; decide) (by rw [couplings_c5]; decide)
    (by rw [couplings_c5]; decide) (by rw [couplings_c5]; decide) (by norm_num)]
  norm_num

theorem pair_FN_c5_13 : pair_FN raw_c5 4 3 1 3 = 16 := by
  rw [pair_FN_eval_two raw_c5 4 1 3 16 0 0 16 16 (by norm_num)
    (by rw [couplings_c5]; decide) (by rw [couplings_c5]; decide)
    (by rw [couplings_c5]; decide) (by rw [couplings_c5]; decide) (by norm_num)]
  norm_num

theorem pair_FN_c5_23 : pair_FN raw_c5 4 3 2 3 = 2 := by
  rw [pair_FN_eval_two raw_c5 4 2 3 2 0 0 2 2 (by norm_num)
    (by rw [couplings_c5]; decide) (by rw [couplings_c5]; decide)
    (by rw [couplings_c5]; decide) (by rw [couplings_c5]; decide) (by norm_num)]
  norm_num

theorem compute_sorted_FN_c5 : compute_sorted_FN raw_c5 4 3
    = [((1, 3), (16 : ℝ)), ((1, 2), 4), ((0, 3), 3), ((0, 2), 2), ((2, 3), 2),
        ((0, 1), 1)] := by
  unfold compute_sorted_FN
  rw [FN_unsorted_four, pair_FN_c5_01, pair_FN_c5_02, pair_FN_c5_03, pair_FN_c5_12,
    pair_FN_c5_13, pair_FN_c5_23]
  norm_num [List.insertionSort, List.orderedInsert, score_ge]

theorem av_sites_c5_0 : av_score_sites raw_c5 4 3 0 = 2 := by
  unfold av_score_sites
  rw [compute_sorted_FN_c5]
  norm_num [List.filter_cons, List.filter_nil]

theorem av_sites_c5_1 : av_score_sites raw_c5 4 3 1 = 7 := by
  unfold av_score_sites
  rw [compute_sorted_FN_c5]
  norm_num [List.filter_cons, List.filter_nil]

theorem av_sites_c5_2 : av_score_sites raw_c5 4 3 2 = 8 / 3 := by
  unfold av_score_sites
  rw [compute_sorted_FN_c5]
  norm_num [List.filter_cons, List.filter_nil]

theorem av_sites_c5_3 : av_score_sites raw_c5 4 3 3 = 7 := by
  unfold av_score_sites
  rw [compute_sorted_FN_c5]
  norm_num [List.filter_cons, List.filter_nil]

theorem av_all_c5 : av_all_scores raw_c5 4 3 = 14 / 3 := by
  unfold av_all_scores
  rw [Finset.sum_range_succ, Finset.sum_range_succ, Finset.sum_range_succ,
    Finset.sum_range_one, av_sites_c5_0, av_sites_c5_1, av_sites_c5_2, av_sites_c5_3]
  norm_num

theorem compute_sorted_FN_APC_c5 : compute_sorted_FN_APC raw_c5 4 3
    = [((1, 3), (11 / 2 : ℝ)), ((0, 2), 6 / 7), ((1, 2), 0), ((0, 3), 0),
        ((2, 3), -2), ((0, 1), -2)] := by
  unfold compute_sorted_FN_APC APC_unsorted
  rw [compute_sorted_FN_c5]
  simp only [List.map, av_sites_c5_0, av_sites_c5_1, av_sites_c5_2, av_sites_c5_3, av_all_c5]
  norm_num [List.insertionSort, List.orderedInsert, score_ge]

/-- C5 counterexample: on `raw_c5` the pairs `(1,2)` and `(0,3)` receive the
same APC-corrected score `0`, yet the APC output lists `(1,2)` (pair offset 3)
before `(0,3)` (pair offset 2), because APC ties fall back to the raw-score
order of `scores_plmdca` (raw scores 4 > 3), not to the ascending
pair-enumeration order the claim asserts. -/
theorem C5_counterexample_apc_ties_not_enumeration_order :
    (compute_sorted_FN_APC raw_c5 4 3).get? 2 = some ((1, 2), 0)
      ∧ (compute_sorted_FN_APC raw_c5 4 3).get? 3 = some ((0, 3), 0)
      ∧ pair_offset 4 0 3 < pair_offset 4 1 2 := by
  rw [compute_sorted_FN_APC_c5]
  exact ⟨rfl, rfl, by decide⟩

end PlmDCA
